import Mathlib

/-!
Shallow embedding of the `zlog` logging library (package `zlog`, files
`zlog.go` and `output_std.go`) in Lean 4, together with theorems checking the
natural-language specification of the library against the code.

Modelling conventions:
  * Machine time (`time.Time`, `time.Duration`) is modelled as `Int`
    nanoseconds; the zero `time.Time` (`IsZero`) is modelled as `0`.
    Functions that call `time.Now()` take the current time as an explicit
    argument.
  * Go `error` values are modelled by their message string.
  * The dynamically typed field values (`interface\x7b\x7d`) are modelled by the
    closed sum `Val`, whose constructors mirror the `switch v.(type)` arms of
    `format` in `output_std.go`; constructors for floats and for the default
    arm carry the string that Go's `%f` / `%v` would render.
  * A Go map `F` is observed through `getF` (lookup); for the value model a
    map is its association list with unique keys (one iteration order).
    Reference semantics of Go maps (needed to study mutation of a shared map)
    are modelled separately in the `GoMap` namespace by a store indexed by
    allocation addresses.
  * Dispatch through `Config.RunOutputs` (which hands the entry to every
    function in `Config.Outputs`) is modelled by returning the list of entries
    handed to the outputs; an empty list means nothing was dispatched.
  * `Config.Format` is fixed to the default `format` of `output_std.go`, and
    `now().Format(Config.FmtTime)` is modelled by the pre-rendered string
    `timeStr`.
-/

namespace Zlog

/-- Field values: the dynamic types distinguished by the `switch v.(type)` in
`format` (`output_std.go`).  `VInt` covers the integer arm (`%d`), `VFloat`
carries the `%f` rendering of a float, `VJSON` is the `JSON` marker type
(emitted verbatim), `VStr` covers `string`/`[]byte`/`[]rune` (`%q` quoted),
and `VOther` carries the `%v` rendering of the default arm. -/
inductive Val where
  | VInt : Int → Val
  | VFloat : String → Val
  | VJSON : String → Val
  | VStr : String → Val
  | VOther : String → Val
deriving DecidableEq

/-- Lookup in an association-list view of a Go map `F`. -/
def getF : List (String × Val) → String → Option Val
  | [], _ => none
  | (k', v) :: rest, k => if k' = k then some v else getF rest k

/-- Write one key into an association-list view of a Go map (`m[k] = v`):
replaces the binding of `k` if present, otherwise appends it. -/
def setKV : List (String × Val) → String → Val → List (String × Val)
  | [], k, v => [(k, v)]
  | (k', v') :: rest, k, v =>
    if k' = k then (k, v) :: rest else (k', v') :: setKV rest k v

/-- The loop `for k, v := range f \x7b l.Data[k] = v \x7d` of `Log.Fields`:
write every pair of `src` into `dst`. -/
def mergeF (dst src : List (String × Val)) : List (String × Val) :=
  src.foldl (fun d kv => setKV d kv.1 kv.2) dst

/-- Log levels (`LevelInfo`..`LevelTrace` in `zlog.go`). -/
def LevelInfo : Nat := 0

/-- Level of entries dispatched by `Error`/`Errorf`. -/
def LevelErr : Nat := 1

/-- Level of entries dispatched by `Debug`/`Debugf`. -/
def LevelDbg : Nat := 2

/-- Level of entries produced by `Trace`/`Tracef`. -/
def LevelTrace : Nat := 3

/-- Model of the `Log` struct of `zlog.go`.  `Ctx` (an opaque
`context.Context`, unused by the core) is omitted; `Err` is the error's
message; `since` is the `time.Time` anchor in nanoseconds (`0` = zero time);
`Data` and `sinceLog` are `none` when the Go map is `nil`. -/
structure Log where
  Msg : String := ""
  Err : Option String := none
  Level : Nat := 0
  Modules : List String := []
  Data : Option (List (String × Val)) := none
  DebugModules : List String := []
  Traces : List String := []
  since : Int := 0
  sinceLog : Option (List (String × Val)) := none
deriving DecidableEq

/-- Model of `LogConfig` together with the package-level state read by the
formatter: `Debug` is `Config.Debug`; `timeStr` stands for the string
`now().Format(Config.FmtTime)` at the moment `format` runs; `enableColors` is
the package variable of that name.  `Outputs` and `Format` are fixed to their
defaults (`output` and `format`). -/
structure LogConfig where
  Debug : List String := []
  timeStr : String := ""
  enableColors : Bool := true
deriving DecidableEq

/-- Model of `Log.hasDebug`: the two inner loops become `List.any`, keeping
the source's test `d == "all" || d == m` for each module `m`. -/
def Log.hasDebug (cfg : LogConfig) (l : Log) : Bool :=
  l.Modules.any fun m =>
    (cfg.Debug.any fun d => d == "all" || d == m) ||
    (l.DebugModules.any fun d => d == "all" || d == m)

/-- Model of the package-level constructor
`Module(m) = Log\x7bModules: []string\x7bm\x7d, since: time.Now()\x7d`;
`t` is the value of `time.Now()`. -/
def Module (m : String) (t : Int) : Log :=
  { Modules := [m], since := t }

/-- Model of the chain method `Log.Module`: appends to `Modules` and resets
the `since` anchor to `time.Now()` (the argument `t`). -/
def Log.Module (l : Log) (m : String) (t : Int) : Log :=
  { l with Modules := l.Modules ++ [m], since := t }

/-- Model of the chain method `Log.SetDebug`: appends to `DebugModules`. -/
def Log.SetDebug (l : Log) (m : List String) : Log :=
  { l with DebugModules := l.DebugModules ++ m }

/-- Model of `Log.Fields`: if `l.Data` is `nil` the argument map is assigned
directly, otherwise every pair of `f` is written into the existing map. -/
def Log.Fields (l : Log) (f : List (String × Val)) : Log :=
  match l.Data with
  | none => { l with Data := some f }
  | some d => { l with Data := some (mergeF d f) }

/-- Model of `Log.Field`: `return l.Fields(F\x7bk: v\x7d)`. -/
def Log.Field (l : Log) (k : String) (v : Val) : Log :=
  l.Fields [(k, v)]

/-- Model of `Log.ResetTrace`. -/
def Log.ResetTrace (l : Log) : Log :=
  { l with Traces := [] }

/-- Byte-wise comparison of Go strings (`sort.Strings` order), on the
character lists; on the ASCII data appearing here this coincides with Go's
byte-lexicographic `<=`. -/
def charsLe : List Char → List Char → Bool
  | [], _ => true
  | _ :: _, [] => false
  | a :: as, b :: bs => if a = b then charsLe as bs else decide (a.toNat < b.toNat)

/-- Go string `<=` on `String`. -/
def strLe (a b : String) : Bool :=
  charsLe a.data b.data

/-- `strLe` as a relation, used as the sorting order of `sort.Strings`. -/
def strLeR (a b : String) : Prop :=
  strLe a b = true

instance : DecidableRel strLeR :=
  fun a b => inferInstanceAs (Decidable (strLe a b = true))

/-- The `colors` map of `output_std.go` (missing keys of a Go map of strings
read as `""`). -/
def colors (level : Nat) : String :=
  if level = LevelInfo then "\x1b[48;5;12m  \x1b[0m "
  else if level = LevelErr then "\x1b[48;5;9m  \x1b[0m "
  else if level = LevelDbg then "\x1b[48;5;247m  \x1b[0m "
  else if level = LevelTrace then "\x1b[48;5;247m  \x1b[0m "
  else ""

/-- The `messages` map of `output_std.go`. -/
def messages (level : Nat) : String :=
  if level = LevelInfo then "INFO: "
  else if level = LevelErr then "ERROR: "
  else if level = LevelDbg then "DEBUG: "
  else if level = LevelTrace then "TRACE: "
  else ""

/-- Go `%q` escaping of one character, for the printable-ASCII fragment used
here (quote, backslash, newline, tab escaped; other characters verbatim). -/
def goQuoteChar (c : Char) : String :=
  if c = '"' then "\\\""
  else if c = '\\' then "\\\\"
  else if c = '\n' then "\\n"
  else if c = '\t' then "\\t"
  else String.singleton c

/-- Go `%q` rendering of a string value. -/
def goQuote (s : String) : String :=
  "\"" ++ String.join (s.data.map goQuoteChar) ++ "\""

/-- One arm of the `switch v.(type)` of `format`: render `k=v` according to
the dynamic type of `v` (integers `%d`, floats `%f`, `JSON` verbatim,
string-like `%q`, default `%v`). -/
def renderField (k : String) (v : Val) : String :=
  match v with
  | .VInt n => k ++ "=" ++ toString n
  | .VFloat s => k ++ "=" ++ s
  | .VJSON s => k ++ "=" ++ s
  | .VStr s => k ++ "=" ++ goQuote s
  | .VOther s => k ++ "=" ++ s

/-- The rendered `k=v` strings of a field map, in iteration order. -/
def renderData (data : List (String × Val)) : List String :=
  data.map fun kv => renderField kv.1 kv.2

/-- `sort.Strings(data)` applied to the rendered `k=v` strings. -/
def sortedData (data : List (String × Val)) : List String :=
  List.insertionSort strLeR (renderData data)

/-- The `if len(l.Data) > 0` block of `format`: render each field, sort the
rendered strings, join with spaces inside `\x7b...\x7d`. -/
def formatData (data : List (String × Val)) : String :=
  if data.length > 0 then
    " \x7b" ++ String.intercalate " " (sortedData data) ++ "\x7d"
  else ""

/-- The writes of `format` after the buffered-traces block: color block,
time, module prefix, level tag, error-or-message body, field block. -/
def formatBody (cfg : LogConfig) (l : Log) : String :=
  (if cfg.enableColors then colors l.Level else "") ++
  cfg.timeStr ++
  (if l.Modules.length > 0 then String.intercalate ": " l.Modules ++ ": " else "") ++
  messages l.Level ++
  (match l.Err with
   | some e => e
   | none => l.Msg) ++
  formatData (l.Data.getD [])

/-- Model of `format` in `output_std.go`: first the buffered traces, each
followed by a newline (error level only), then the rest of the line. -/
def format (cfg : LogConfig) (l : Log) : String :=
  (if l.Level = LevelErr then String.join (l.Traces.map (· ++ "\n")) else "") ++
  formatBody cfg l

/-- Model of `LogConfig.RunOutputs`: the entry is handed to every function of
`Config.Outputs`; we record the dispatched entry (an empty list means no
dispatch happened). -/
def LogConfig.RunOutputs (_cfg : LogConfig) (l : Log) : List Log :=
  [l]

/-- Model of the terminal `Log.Print` (message already `fmt.Sprint`-ed):
returns the entries dispatched to the outputs. -/
def Log.Print (cfg : LogConfig) (l : Log) (msg : String) : List Log :=
  LogConfig.RunOutputs cfg { l with Msg := msg, Level := LevelInfo }

/-- Model of the terminal `Log.Error`: sets `Err` and `LevelErr`, then
dispatches. -/
def Log.Error (cfg : LogConfig) (l : Log) (err : String) : List Log :=
  LogConfig.RunOutputs cfg { l with Err := some err, Level := LevelErr }

/-- Model of `Log.Trace` (the argument is the `fmt.Sprint`-ed message):
sets message and trace level; if the debug gate holds, dispatches at once and
returns the entry; otherwise appends `Config.Format(l)` to `Traces` and
returns the entry, dispatching nothing. -/
def Log.Trace (cfg : LogConfig) (l : Log) (msg : String) : Log × List Log :=
  let l := { l with Msg := msg, Level := LevelTrace }
  if l.hasDebug cfg then (l, LogConfig.RunOutputs cfg l)
  else ({ l with Traces := l.Traces ++ [format cfg l] }, [])

/-- Model of `Log.Tracef`; identical to `Log.Trace` except that the message
was produced by `fmt.Sprintf` (already applied in the argument). -/
def Log.Tracef (cfg : LogConfig) (l : Log) (msg : String) : Log × List Log :=
  let l := { l with Msg := msg, Level := LevelTrace }
  if l.hasDebug cfg then (l, LogConfig.RunOutputs cfg l)
  else ({ l with Traces := l.Traces ++ [format cfg l] }, [])

/-- Pad on the right with spaces to width `w` (Go `%-16s`). -/
def padRight (s : String) (w : Nat) : String :=
  s ++ String.mk (List.replicate (w - s.data.length) ' ')

/-- Pad on the left with spaces to width `w` (Go `%5d` applied to the decimal
rendering). -/
def padLeft (s : String) (w : Nat) : String :=
  String.mk (List.replicate (w - s.data.length) ' ') ++ s

/-- The stderr line of `Log.Since`:
`fmt.Fprintf(stderr, "  %-16s %5dms  %s\n", strings.Join(l.Modules, ":"), s, msg)`. -/
def sinceLine (mods : List String) (s : Int) (msg : String) : String :=
  "  " ++ padRight (String.intercalate ":" mods) 16 ++ " " ++
    padLeft (toString s) 5 ++ "ms  " ++ msg ++ "\n"

/-- Model of `Log.Since`: `t` is the value of `time.Now()` (the code reads the
clock twice, for `n` and inside `time.Since`; both reads are modelled by `t`).
Elapsed whole milliseconds are `time.Since(l.since).Nanoseconds() / 1000000`,
Go's `/` being truncated division (`Int.tdiv`).  Returns the updated entry and
the lines written to stderr. -/
def Log.Since (cfg : LogConfig) (l : Log) (msg : String) (t : Int) : Log × List String :=
  let l := if l.since = 0 then { l with since := t } else l
  let s := (t - l.since).tdiv 1000000
  let sl := setKV (l.sinceLog.getD []) msg (Val.VStr (toString s ++ "ms"))
  let out := if l.hasDebug cfg then [sinceLine l.Modules s msg] else []
  ({ l with sinceLog := some sl, since := t }, out)

/-- Model of `Recover`: `panicked` is the recovered value (as the string Go
would produce for it), or `none` when no panic occurred; `stack` is
`debug.Stack()`; `t` is `time.Now()` at `Module("panic")`.  Returns the
entries dispatched to the outputs and the indices into `cb` of the callbacks
invoked, in invocation order.  The post-dispatch loop is
`if len(cb) > 1 \x7b for i := range cb[1:] \x7b l = cb[i](l) \x7d \x7d`, which
indexes the original slice `cb`, so it invokes `cb[0] .. cb[len(cb)-2]`. -/
def Recover (cfg : LogConfig) (panicked : Option String) (stack : String) (t : Int)
    (cb : List (Log → Log)) : List Log × List Nat :=
  match panicked with
  | none => ([], [])
  | some r =>
    let l := Module "panic" t
    let pre : Log × List Nat :=
      match cb with
      | [] => (l, [])
      | c :: _ => (c l, [0])
    let emitted := Log.Error cfg pre.1 (r ++ "\n" ++ stack)
    let postIdx : List Nat := if cb.length > 1 then List.range (cb.length - 1) else []
    let _lAfter := postIdx.foldl (fun acc i => (cb.getD i id) acc) pre.1
    (emitted, pre.2 ++ postIdx)

/-- `strings.TrimSpace`, on the character list. -/
def trimChars (s : List Char) : List Char :=
  ((s.dropWhile Char.isWhitespace).reverse.dropWhile Char.isWhitespace).reverse

/-- `strings.Split(d, ",")`, on the character list: splitting the empty string
yields `[""]`. -/
def splitComma : List Char → List (List Char)
  | [] => [[]]
  | c :: rest =>
    match splitComma rest with
    | [] => [[]]
    | s :: ss => if c = ',' then [] :: s :: ss else (c :: s) :: ss

/-- Model of `(*LogConfig).SetDebug`: the final value of `c.Debug`.  In the
source the branch `if d == "" \x7b c.Debug = nil \x7d` is a dead store: it is
followed unconditionally by `c.Debug = strings.Split(d, ",")`. -/
def LogConfig.SetDebug (d : String) : List String :=
  let d := trimChars d.data
  (splitComma d).map String.mk

/-- A configuration with module `"x"` in the global debug list. -/
def cfgX : LogConfig := { Debug := ["x"] }

/-- The entry `Module("x")` created at time 5. -/
def entryX : Log := Module "x" 5

/-- The entry `Module("y")` created at time 5. -/
def entryY : Log := Module "y" 5

namespace GoMap

/-- Reference-semantics model of Go maps, for studying mutation of a map
shared between entries: a store of maps indexed by allocation address. -/
structure Store where
  next : Nat
  heap : Nat → String → Option Val

/-- The `Log` struct with its `Data` field at Go-map reference semantics:
`Data` holds the address of a map in the store, or `none` for a `nil` map.
The timing fields, irrelevant to sharing, are omitted. -/
structure Log where
  Msg : String := ""
  Err : Option String := none
  Level : Nat := 0
  Modules : List String := []
  Data : Option Nat := none
  DebugModules : List String := []
  Traces : List String := []

/-- The effect of `for k, v := range src \x7b dst[k] = v \x7d` on map contents. -/
def mergeM (dst src : String → Option Val) : String → Option Val :=
  fun k =>
    match src k with
    | some v => some v
    | none => dst k

/-- `Log.Fields` at reference semantics: `f` is the address of the argument
map.  A `nil` receiver map takes the argument map by reference without
touching the store; otherwise the loop writes through the receiver's map
reference, updating the store at that address. -/
def Log.Fields (l : Log) (f : Nat) (σ : Store) : Log × Store :=
  match l.Data with
  | none => ({ l with Data := some f }, σ)
  | some r =>
    (l, { σ with
          heap := fun a => if a = r then mergeM (σ.heap r) (σ.heap f) else σ.heap a })

/-- Observing one field of an entry (`l.Data[k]`) in a given store. -/
def Log.fieldVal (l : Log) (σ : Store) (k : String) : Option Val :=
  match l.Data with
  | none => none
  | some r => σ.heap r k

/-- The chain method `Log.Module` (no map is touched). -/
def Log.Module (l : Log) (m : String) : Log :=
  { l with Modules := l.Modules ++ [m] }

/-- The chain method `Log.SetDebug` (no map is touched). -/
def Log.SetDebug (l : Log) (ms : List String) : Log :=
  { l with DebugModules := l.DebugModules ++ ms }

/-- Contents of the map `F\x7b"k": 1\x7d`. -/
def m0 : String → Option Val := fun k => if k = "k" then some (Val.VInt 1) else none

/-- Contents of the map `F\x7b"j": 2\x7d`. -/
def m1 : String → Option Val := fun k => if k = "j" then some (Val.VInt 2) else none

/-- A store with `F\x7b"k": 1\x7d` at address 0 and `F\x7b"j": 2\x7d` at address 1. -/
def sigma0 : Store :=
  { next := 2, heap := fun a => if a = 0 then m0 else if a = 1 then m1 else fun _ => none }

/-- The entry `a := Fields(F\x7b"k": 1\x7d)`: its field map is the map at address 0. -/
def aEntry : Log := { Data := some 0 }

end GoMap

/-! Helper lemmas. -/

/-- Prepending the empty string is the identity. -/
theorem empty_append_str (s : String) : "" ++ s = s := by
  cases s
  rfl

/-- Characters are determined by their code points. -/
theorem char_toNat_inj {a b : Char} (h : a.toNat = b.toNat) : a = b :=
  Char.eq_of_val_eq (UInt32.ext h)

/-- Totality of the byte-wise string order, on character lists. -/
theorem charsLe_total : ∀ as bs : List Char, charsLe as bs = true ∨ charsLe bs as = true
  | [], _ => Or.inl rfl
  | _ :: _, [] => Or.inr rfl
  | a :: as, b :: bs => by
    by_cases h : a = b
    · subst h
      simpa [charsLe] using charsLe_total as bs
    · have h' : b ≠ a := fun hb => h hb.symm
      rcases Nat.lt_trichotomy a.toNat b.toNat with hlt | heq | hgt
      · left; simp [charsLe, h, hlt]
      · exact absurd (char_toNat_inj heq) h
      · right; simp [charsLe, h', hgt]

/-- Transitivity of the byte-wise string order, on character lists. -/
theorem charsLe_trans : ∀ as bs cs : List Char,
    charsLe as bs = true → charsLe bs cs = true → charsLe as cs = true
  | [], _, _, _, _ => rfl
  | _ :: _, [], _, h, _ => by simp [charsLe] at h
  | _ :: _, _ :: _, [], _, h => by simp [charsLe] at h
  | a :: as, b :: bs, c :: cs, h₁, h₂ => by
    by_cases hab : a = b <;> by_cases hbc : b = c
    · subst hab; subst hbc
      simp only [charsLe, if_pos rfl] at h₁ h₂ ⊢
      exact charsLe_trans as bs cs h₁ h₂
    · subst hab
      simp only [charsLe, if_pos rfl] at h₁
      simp only [charsLe, if_neg hbc] at h₂ ⊢
      exact h₂
    · subst hbc
      simp only [charsLe, if_pos rfl] at h₂
      simp only [charsLe, if_neg hab] at h₁ ⊢
      exact h₁
    · simp only [charsLe, if_neg hab, decide_eq_true_eq] at h₁
      simp only [charsLe, if_neg hbc, decide_eq_true_eq] at h₂
      have hac : a.toNat < c.toNat := Nat.lt_trans h₁ h₂
      have hne : a ≠ c := fun h => absurd (h ▸ hac) (Nat.lt_irrefl _)
      simp [charsLe, hne, hac]

/-- Antisymmetry of the byte-wise string order, on character lists. -/
theorem charsLe_antisymm : ∀ as bs : List Char,
    charsLe as bs = true → charsLe bs as = true → as = bs
  | [], [], _, _ => rfl
  | [], _ :: _, _, h => by simp [charsLe] at h
  | _ :: _, [], h, _ => by simp [charsLe] at h
  | a :: as, b :: bs, h₁, h₂ => by
    by_cases hab : a = b
    · subst hab
      simp only [charsLe, if_pos rfl] at h₁ h₂
      rw [charsLe_antisymm as bs h₁ h₂]
    · have hba : b ≠ a := fun h => hab h.symm
      simp only [charsLe, if_neg hab, decide_eq_true_eq] at h₁
      simp only [charsLe, if_neg hba, decide_eq_true_eq] at h₂
      exact absurd (Nat.lt_trans h₁ h₂) (Nat.lt_irrefl _)

instance : IsTotal String strLeR :=
  ⟨fun a b => charsLe_total a.data b.data⟩

instance : IsTrans String strLeR :=
  ⟨fun a b c => charsLe_trans a.data b.data c.data⟩

instance : IsAntisymm String strLeR :=
  ⟨fun a b h₁ h₂ => by
    have h := charsLe_antisymm a.data b.data h₁ h₂
    cases a; cases b; exact congrArg String.mk h⟩

/-- Lookup after writing the looked-up key: last write wins. -/
theorem getF_setKV (f : List (String × Val)) (k : String) (v : Val) :
    getF (setKV f k v) k = some v := by
  induction f with
  | nil => simp [setKV, getF]
  | cons kv rest ih =>
    obtain ⟨k', v'⟩ := kv
    by_cases h : k' = k
    · simp [setKV, h, getF]
    · simp [setKV, h, getF, ih]

/-- Lookup of a different key after a write: unchanged. -/
theorem getF_setKV_ne (f : List (String × Val)) (k k' : String) (v : Val) (h : k' ≠ k) :
    getF (setKV f k v) k' = getF f k' := by
  induction f with
  | nil => simp [setKV, getF, if_neg (Ne.symm h)]
  | cons kv rest ih =>
    obtain ⟨k'', v''⟩ := kv
    by_cases h2 : k'' = k
    · subst h2
      simp [setKV, getF, if_neg (Ne.symm h)]
    · by_cases h3 : k'' = k'
      · subst h3
        simp [setKV, h2, getF]
      · simp [setKV, h2, getF, h3, ih]

/-- A scan `for d in L: if d == a || d == m: return true` succeeds iff `a` or
`m` occurs in `L`. -/
theorem any_wildcard (L : List String) (a m : String) :
    (L.any fun d => d == a || d == m) = true ↔ a ∈ L ∨ m ∈ L := by
  simp only [List.any_eq_true, Bool.or_eq_true, beq_iff_eq]
  constructor
  · rintro ⟨d, hd, h | h⟩
    · exact Or.inl (h ▸ hd)
    · exact Or.inr (h ▸ hd)
  · rintro (h | h)
    · exact ⟨a, h, Or.inl rfl⟩
    · exact ⟨m, h, Or.inr rfl⟩

/-- `formatBody` does not read `Traces`. -/
theorem formatBody_traces (cfg : LogConfig) (e : Log) (ts : List String) :
    formatBody cfg { e with Traces := ts } = formatBody cfg e := rfl

/-- Formatting an entry whose trace buffer is empty yields just the body. -/
theorem format_traces_nil (cfg : LogConfig) (e : Log) :
    format cfg { e with Traces := [] } = formatBody cfg e := by
  unfold format
  rw [formatBody_traces]
  have h : (if ({ e with Traces := ([] : List String) } : Log).Level = LevelErr
      then String.join ((({ e with Traces := ([] : List String) } : Log).Traces).map (· ++ "\n"))
      else "") = "" := by
    split <;> rfl
  rw [h, empty_append_str]

/-! Claim theorems. -/

/-- C1: `hasDebug` returns true iff the entry has at least one module `m`
such that `m` occurs in the global debug list or in the entry's
`DebugModules`, or the wildcard `"all"` occurs in either of those lists; an
entry with an empty `Modules` list never matches, regardless of either
list. -/
theorem hasDebug_iff (cfg : LogConfig) (l : Log) :
    (Log.hasDebug cfg l = true ↔
      ∃ m ∈ l.Modules,
        (m ∈ cfg.Debug ∨ m ∈ l.DebugModules) ∨
        ("all" ∈ cfg.Debug ∨ "all" ∈ l.DebugModules)) ∧
    (l.Modules = [] → Log.hasDebug cfg l = false) := by
  constructor
  · simp only [Log.hasDebug, List.any_eq_true, Bool.or_eq_true, beq_iff_eq]
    constructor
    · rintro ⟨m, hm, ⟨x, hx, rfl | rfl⟩ | ⟨x, hx, rfl | rfl⟩⟩
      · exact ⟨m, hm, Or.inr (Or.inl hx)⟩
      · exact ⟨x, hm, Or.inl (Or.inl hx)⟩
      · exact ⟨m, hm, Or.inr (Or.inr hx)⟩
      · exact ⟨x, hm, Or.inl (Or.inr hx)⟩
    · rintro ⟨m, hm, (h | h) | (h | h)⟩
      · exact ⟨m, hm, Or.inl ⟨m, h, Or.inr rfl⟩⟩
      · exact ⟨m, hm, Or.inr ⟨m, h, Or.inr rfl⟩⟩
      · exact ⟨m, hm, Or.inl ⟨"all", h, Or.inl rfl⟩⟩
      · exact ⟨m, hm, Or.inr ⟨"all", h, Or.inl rfl⟩⟩
  · intro h
    simp [Log.hasDebug, h]

/-- Witness for C1 at concrete inputs: with the wildcard in the global list,
an entry with no modules does not match and an entry with one module does. -/
theorem hasDebug_iff_w :
    Log.hasDebug { Debug := ["all"] } {} = false ∧
    Log.hasDebug { Debug := ["all"] } { Modules := ["x"] } = true := by
  constructor
  · exact (hasDebug_iff { Debug := ["all"] } {}).2 rfl
  · exact (hasDebug_iff { Debug := ["all"] } { Modules := ["x"] }).1.mpr
      ⟨"x", by decide, Or.inr (Or.inl (by decide))⟩

/-- C3: while the debug gate is false, `Trace` and `Tracef` dispatch nothing
to the outputs and append exactly one formatted line to `Traces`; while the
gate is true they dispatch the entry immediately and leave `Traces`
unchanged — one call never both buffers and emits. -/
theorem trace_gate (cfg : LogConfig) (l : Log) (msg : String) :
    (Log.hasDebug cfg l = false →
      (Log.Trace cfg l msg).2 = [] ∧
      (Log.Trace cfg l msg).1.Traces.length = l.Traces.length + 1 ∧
      (Log.Tracef cfg l msg).2 = [] ∧
      (Log.Tracef cfg l msg).1.Traces.length = l.Traces.length + 1) ∧
    (Log.hasDebug cfg l = true →
      (Log.Trace cfg l msg).2 = [{ l with Msg := msg, Level := LevelTrace }] ∧
      (Log.Trace cfg l msg).1.Traces = l.Traces ∧
      (Log.Tracef cfg l msg).2 = [{ l with Msg := msg, Level := LevelTrace }] ∧
      (Log.Tracef cfg l msg).1.Traces = l.Traces) := by
  have hd : Log.hasDebug cfg { l with Msg := msg, Level := LevelTrace } = Log.hasDebug cfg l :=
    rfl
  constructor
  · intro h
    simp [Log.Trace, Log.Tracef, hd, h, LogConfig.RunOutputs]
  · intro h
    simp [Log.Trace, Log.Tracef, hd, h, LogConfig.RunOutputs]

/-- Witness for C3 at concrete inputs: module `"y"` is not debugged (buffer,
no dispatch), module `"x"` is (dispatch, no buffer). -/
theorem trace_gate_w :
    (Log.Trace { Debug := ["x"] } (Module "y" 5) "m").2 = [] ∧
    (Log.Trace { Debug := ["x"] } (Module "y" 5) "m").1.Traces.length =
      (Module "y" 5).Traces.length + 1 ∧
    (Log.Trace { Debug := ["x"] } (Module "x" 5) "m").1.Traces = (Module "x" 5).Traces := by
  refine ⟨?_, ?_, ?_⟩
  · exact ((trace_gate { Debug := ["x"] } (Module "y" 5) "m").1 (by decide)).1
  · exact ((trace_gate { Debug := ["x"] } (Module "y" 5) "m").1 (by decide)).2.1
  · exact ((trace_gate { Debug := ["x"] } (Module "x" 5) "m").2 (by decide)).2.1

/-- C4: `Error` dispatches the entry with its buffered traces, and the
formatter emits exactly those trace lines, in insertion order, each followed
by a newline, immediately before the error line; at non-error levels the
buffered traces do not appear in the output. -/
theorem error_flushes_traces (cfg : LogConfig) (l : Log) (err : String) :
    (Log.Error cfg l err = [{ l with Err := some err, Level := LevelErr }]) ∧
    (∀ e : Log, e.Level = LevelErr →
      format cfg e =
        String.join (e.Traces.map (· ++ "\n")) ++ format cfg { e with Traces := [] }) ∧
    (∀ e : Log, e.Level ≠ LevelErr →
      format cfg e = format cfg { e with Traces := [] }) := by
  refine ⟨rfl, ?_, ?_⟩
  · intro e he
    rw [format_traces_nil]
    unfold format
    rw [if_pos he]
  · intro e he
    rw [format_traces_nil]
    unfold format
    rw [if_neg he, empty_append_str]

/-- Witness for C4 at a concrete input: an error entry with two buffered
traces formats as the two trace lines followed by the error line. -/
theorem error_flushes_traces_w :
    format {} { Level := 1, Err := some "boom", Traces := ["a", "b"] } =
      "a\nb\n" ++ format {} { Level := 1, Err := some "boom", Traces := [] } := by
  have h := (error_flushes_traces {} {} "x").2.1
    { Level := 1, Err := some "boom", Traces := ["a", "b"] } rfl
  simpa using h

/-- C2 counterexample: with `a := Fields(F\x7b"k": 1\x7d)` (whose field map lives
at address 0) and the argument map `F\x7b"j": 2\x7d` at address 1, the call
`b := a.Fields(F\x7b"j": 2\x7d)` writes through the shared map, so `a` observes
the key `"j"` afterwards: the operand is not left observationally
unchanged. -/
theorem fields_mutates_operand_cex :
    GoMap.Log.fieldVal GoMap.aEntry GoMap.sigma0 "j" = none ∧
    GoMap.Log.fieldVal GoMap.aEntry (GoMap.Log.Fields GoMap.aEntry 1 GoMap.sigma0).2 "j" =
      some (Val.VInt 2) := by
  refine ⟨rfl, rfl⟩

/-- C2 (amended): every chain method returns a new `Log` value, and the
operand's own struct fields are never written (the struct is passed by
value); `Module` and `SetDebug` touch no shared state, and `Fields` on an
operand whose field map is `nil` installs the argument map without touching
the store — so the spec's example `a := Module("x"); b := a.Fields(F\x7b"k":1\x7d)`
leaves `a` unchanged.  But `Fields` on an operand whose field map is non-nil
writes the merged bindings into that shared map: maps at other addresses are
untouched, while the operand itself observes the merged bindings
afterwards. -/
theorem fields_sharing (l : GoMap.Log) (f r : Nat) (σ : GoMap.Store) (k : String) :
    ((GoMap.Log.Module l "x").Modules = l.Modules ++ ["x"] ∧
      (GoMap.Log.Module l "x").Data = l.Data) ∧
    (l.Data = none →
      GoMap.Log.Fields l f σ = ({ l with Data := some f }, σ)) ∧
    (l.Data = some r →
      (GoMap.Log.Fields l f σ).1 = l ∧
      (∀ a, a ≠ r → (GoMap.Log.Fields l f σ).2.heap a = σ.heap a) ∧
      GoMap.Log.fieldVal l (GoMap.Log.Fields l f σ).2 k =
        (match σ.heap f k with
         | some v => some v
         | none => GoMap.Log.fieldVal l σ k)) := by
  refine ⟨⟨rfl, rfl⟩, ?_, ?_⟩
  · intro h
    simp [GoMap.Log.Fields, h]
  · intro h
    refine ⟨?_, ?_, ?_⟩
    · simp [GoMap.Log.Fields, h]
    · intro a ha
      simp [GoMap.Log.Fields, h, ha]
    · simp [GoMap.Log.Fields, GoMap.Log.fieldVal, GoMap.mergeM, h]

/-- Witness for C2 (amended) at the concrete store of the counterexample:
the returned struct equals the operand, but the operand's observed fields
follow the merged map. -/
theorem fields_sharing_w :
    (GoMap.Log.Fields GoMap.aEntry 1 GoMap.sigma0).1 = GoMap.aEntry ∧
    (GoMap.Log.Fields GoMap.aEntry 1 GoMap.sigma0).2.heap 5 = GoMap.sigma0.heap 5 ∧
    GoMap.Log.fieldVal GoMap.aEntry (GoMap.Log.Fields GoMap.aEntry 1 GoMap.sigma0).2 "j" =
      (match GoMap.sigma0.heap 1 "j" with
       | some v => some v
       | none => GoMap.Log.fieldVal GoMap.aEntry GoMap.sigma0 "j") := by
  have h := (fields_sharing GoMap.aEntry 1 0 GoMap.sigma0 "j").2.2 rfl
  exact ⟨h.1, h.2.1 5 (by decide), h.2.2⟩

/-- C5 counterexample: with module `"x"` being debugged, `Trace("m")`
dispatches immediately but returns the entry with its message still `"m"`,
not cleared to the empty string. -/
theorem trace_msg_not_cleared_cex :
    Log.hasDebug { Debug := ["x"] } (Module "x" 5) = true ∧
    (Log.Trace { Debug := ["x"] } (Module "x" 5) "m").1.Msg = "m" ∧
    ("m" : String) ≠ "" := by
  refine ⟨rfl, rfl, by decide⟩

/-- C5 (amended): when the debug gate is true, `Trace` dispatches the entry
immediately and returns it with the trace message still set (the message is
not cleared); when the gate is false, the formatted line is appended to
`Traces` and the entry is returned for further chaining: a later `Print` on
the returned entry dispatches it at info level, and its formatted output is
independent of the buffered traces. -/
theorem trace_return (cfg : LogConfig) (l : Log) (msg : String) :
    (Log.hasDebug cfg l = true →
      (Log.Trace cfg l msg).1 = { l with Msg := msg, Level := LevelTrace } ∧
      (Log.Trace cfg l msg).2 = [{ l with Msg := msg, Level := LevelTrace }]) ∧
    (Log.hasDebug cfg l = false →
      (Log.Trace cfg l msg).2 = [] ∧
      (Log.Trace cfg l msg).1 =
        { l with Msg := msg, Level := LevelTrace,
                 Traces := l.Traces ++ [format cfg { l with Msg := msg, Level := LevelTrace }] } ∧
      (∀ p, Log.Print cfg (Log.Trace cfg l msg).1 p =
        [{ l with Msg := p, Level := LevelInfo,
                  Traces := l.Traces ++ [format cfg { l with Msg := msg, Level := LevelTrace }] }]) ∧
      (∀ p, format cfg
          { l with Msg := p, Level := LevelInfo,
                   Traces := l.Traces ++ [format cfg { l with Msg := msg, Level := LevelTrace }] } =
        format cfg { l with Msg := p, Level := LevelInfo })) := by
  have hd : Log.hasDebug cfg { l with Msg := msg, Level := LevelTrace } = Log.hasDebug cfg l :=
    rfl
  constructor
  · intro h
    simp [Log.Trace, hd, h, LogConfig.RunOutputs]
  · intro h
    refine ⟨?_, ?_, ?_, ?_⟩
    · simp [Log.Trace, hd, h]
    · simp [Log.Trace, hd, h]
    · intro p
      simp [Log.Trace, hd, h, Log.Print, LogConfig.RunOutputs]
    · intro p
      have h1 : format cfg
          { l with Msg := p, Level := LevelInfo,
                   Traces := l.Traces ++ [format cfg { l with Msg := msg, Level := LevelTrace }] } =
          formatBody cfg { l with Msg := p, Level := LevelInfo } := by
        unfold format
        rw [if_neg (by simp [LevelInfo, LevelErr]), empty_append_str]
        rfl
      have h2 : format cfg { l with Msg := p, Level := LevelInfo } =
          formatBody cfg { l with Msg := p, Level := LevelInfo } := by
        unfold format
        rw [if_neg (by simp [LevelInfo, LevelErr]), empty_append_str]
      rw [h1, h2]

/-- Witness for C5 (amended) at concrete inputs covering both branches of the
gate. -/
theorem trace_return_w :
    (Log.Trace cfgX entryX "m").1 = { entryX with Msg := "m", Level := LevelTrace } ∧
    (Log.Trace cfgX entryY "m").2 = [] ∧
    Log.Print cfgX (Log.Trace cfgX entryY "m").1 "p" =
      [{ entryY with Msg := "p", Level := LevelInfo, Traces := entryY.Traces ++ [format cfgX { entryY with Msg := "m", Level := LevelTrace }] }] := by
  refine ⟨?_, ?_, ?_⟩
  · exact ((trace_return cfgX entryX "m").1 (by decide)).1
  · exact ((trace_return cfgX entryY "m").2 (by decide)).1
  · exact ((trace_return cfgX entryY "m").2 (by decide)).2.2.1 "p"

/-- C6: `Since(label)` on a `Module`-created entry with no prior `Since`
measures the elapsed time from creation (the anchor), in whole truncated
milliseconds, records `label -> "<n>ms"` into `sinceLog`, writes the padded
debug line to stderr exactly when the debug gate is true, and resets the
anchor to now — so a second `Since` measures from the first call, not from
creation. -/
theorem since_spec (cfg : LogConfig) (m msg msg₂ : String) (t₀ t₁ t₂ : Int)
    (h₀ : t₀ ≠ 0) (h₁ : t₁ ≠ 0) :
    (getF ((Log.Since cfg (Module m t₀) msg t₁).1.sinceLog.getD []) msg =
      some (Val.VStr (toString ((t₁ - t₀).tdiv 1000000) ++ "ms"))) ∧
    ((Log.Since cfg (Module m t₀) msg t₁).1.since = t₁) ∧
    ((Log.Since cfg (Module m t₀) msg t₁).2 =
      if Log.hasDebug cfg (Module m t₀)
      then [sinceLine [m] ((t₁ - t₀).tdiv 1000000) msg]
      else []) ∧
    (getF ((Log.Since cfg (Log.Since cfg (Module m t₀) msg t₁).1 msg₂ t₂).1.sinceLog.getD [])
        msg₂ =
      some (Val.VStr (toString ((t₂ - t₁).tdiv 1000000) ++ "ms"))) := by
  have hz : (Module m t₀).since = t₀ := rfl
  refine ⟨?_, ?_, ?_, ?_⟩
  · simp [Log.Since, Module, h₀, getF]
  · simp [Log.Since, Module, h₀]
  · simp only [Log.Since, Module, if_neg h₀]
  · simp only [Log.Since, Module, if_neg h₀, if_neg h₁, Option.getD_some]
    simp [getF_setKV]

/-- Witness for C6 at concrete times: creation at 1ns, first `Since` at
2999999ns (2.999999ms, recorded truncated as 2ms), second at 5000000ns
(2.000001ms later, recorded truncated as 2ms measured from the first call). -/
theorem since_spec_w :
    (getF ((Log.Since cfgX (Module "x" 1) "a" 2999999).1.sinceLog.getD []) "a" =
      some (Val.VStr "2ms")) ∧
    ((Log.Since cfgX (Module "x" 1) "a" 2999999).2 = [sinceLine ["x"] 2 "a"]) ∧
    (getF ((Log.Since cfgX (Log.Since cfgX (Module "x" 1) "a" 2999999).1 "b" 5000000).1.sinceLog.getD []) "b" =
      some (Val.VStr "2ms")) := by
  have h := since_spec cfgX "x" "a" "b" 1 2999999 5000000 (by decide) (by decide)
  refine ⟨?_, ?_, ?_⟩
  · have := h.1
    simpa using this
  · have := h.2.2.1
    simpa [show Log.hasDebug cfgX (Module "x" 1) = true from rfl] using this
  · have := h.2.2.2
    simpa using this

/-- The first callback passed to `Recover`, attaching a field. -/
def cbA : Log → Log := fun l => l.Field "a" (Val.VStr "b")

/-- The second callback passed to `Recover`, attaching another field. -/
def cbB : Log → Log := fun l => l.Field "c" (Val.VStr "d")

/-- C7: evaluation of `Recover` at the failing input (a panic with two
callbacks).  Without a panic nothing is dispatched and no callback runs.
With a panic, exactly one error-level `Module("panic")` entry is dispatched,
with the first callback's field attached before dispatch and the panic value
embedded in the error.  But the post-dispatch loop
(`for i := range cb[1:] \x7b l = cb[i](l) \x7d`) indexes the original slice:
the invoked callbacks are `[0, 0]` — the first callback runs again after
dispatch and the second callback never runs, contrary to the claim that the
callbacks from the second onward run after dispatch. -/
theorem recover_callback_order :
    (Recover {} none "st" 7 [cbA, cbB] = ([], [])) ∧
    ((Recover {} (some "oh noes") "st" 7 [cbA, cbB]).1 =
      [{ Modules := ["panic"], since := 7, Data := some [("a", Val.VStr "b")], Err := some "oh noes\nst", Level := LevelErr }]) ∧
    ((Recover {} (some "oh noes") "st" 7 [cbA, cbB]).2 = [0, 0]) ∧
    (1 ∉ (Recover {} (some "oh noes") "st" 7 [cbA, cbB]).2) := by
  refine ⟨rfl, rfl, rfl, by decide⟩

/-- C8: evaluation of `(*LogConfig).SetDebug` at the failing input `""`: the
debug list is not cleared — the dead `c.Debug = nil` is overwritten by
`strings.Split("", ",") = []string\x7b""\x7d` — so one module (the empty name)
remains debug-active, while non-empty inputs are trimmed and split on commas
as described. -/
theorem setdebug_empty_not_cleared :
    (LogConfig.SetDebug "" = [""]) ∧
    (LogConfig.SetDebug "" ≠ []) ∧
    (Log.hasDebug { Debug := LogConfig.SetDebug "" } { Modules := [""] } = true) ∧
    (LogConfig.SetDebug " a,b " = ["a", "b"]) := by
  refine ⟨rfl, by decide, rfl, by decide⟩

/-- C9 counterexample: the formatter sorts the rendered `k=v` strings, not
the keys.  For the fields `a=1` and `a0=2` the rendered strings sort as
`["a0=2", "a=1"]` (since `'0' < '='` byte-wise), so in the output the key
`"a0"` precedes the key `"a"` although `"a" < "a0"` lexicographically: the
keys do not appear in lexicographically sorted order. -/
theorem field_order_cex :
    (sortedData [("a", Val.VInt 1), ("a0", Val.VInt 2)] = ["a0=2", "a=1"]) ∧
    (strLe "a" "a0" = true) ∧
    ¬ List.Pairwise strLeR
        ((sortedData [("a", Val.VInt 1), ("a0", Val.VInt 2)]).map
          fun s => String.mk (s.data.takeWhile fun c => c != '=')) := by
  refine ⟨rfl, rfl, by decide⟩

/-- C9 (amended): field rendering is deterministic — for a fixed field map,
any iteration order produces byte-identical output — and each `key=value`
pair is rendered by its dynamic type (integers unquoted, strings quoted, the
raw JSON marker verbatim); the rendered `key=value` strings appear in
lexicographically sorted order as whole strings (which can deviate from
key-sorted order, e.g. for keys `"a"` and `"a0"`), inside a `\x7b...\x7d`
block. -/
theorem format_data_deterministic (cfg : LogConfig) (l : Log) (d₁ d₂ : List (String × Val))
    (h : d₁.Perm d₂) :
    (formatData d₁ = formatData d₂) ∧
    (format cfg { l with Data := some d₁ } = format cfg { l with Data := some d₂ }) ∧
    List.Sorted strLeR (sortedData d₁) ∧
    (sortedData d₁).Perm (renderData d₁) ∧
    (∀ k n, renderField k (Val.VInt n) = k ++ "=" ++ toString n) ∧
    (∀ k s, renderField k (Val.VStr s) = k ++ "=" ++ goQuote s) ∧
    (∀ k s, renderField k (Val.VJSON s) = k ++ "=" ++ s) := by
  have hperm : (renderData d₁).Perm (renderData d₂) := by
    unfold renderData
    exact h.map _
  have hsort : sortedData d₁ = sortedData d₂ :=
    List.eq_of_perm_of_sorted
      (((List.perm_insertionSort strLeR (renderData d₁)).trans hperm).trans
        (List.perm_insertionSort strLeR (renderData d₂)).symm)
      (List.sorted_insertionSort strLeR (renderData d₁))
      (List.sorted_insertionSort strLeR (renderData d₂))
  have hfd : formatData d₁ = formatData d₂ := by
    unfold formatData
    rw [hsort, h.length_eq]
  refine ⟨hfd, ?_, ?_, ?_, fun k n => rfl, fun k s => rfl, fun k s => rfl⟩
  · unfold format formatBody
    simp only [Option.getD_some, hfd]
  · exact List.sorted_insertionSort strLeR (renderData d₁)
  · exact List.perm_insertionSort strLeR (renderData d₁)

/-- Witness for C9 (amended) at a concrete permutation of a two-field map. -/
theorem format_data_deterministic_w :
    formatData [("b", Val.VInt 2), ("a", Val.VStr "x")] =
      formatData [("a", Val.VStr "x"), ("b", Val.VInt 2)] ∧
    List.Sorted strLeR (sortedData [("b", Val.VInt 2), ("a", Val.VStr "x")]) := by
  have h := format_data_deterministic {} {}
    [("b", Val.VInt 2), ("a", Val.VStr "x")] [("a", Val.VStr "x"), ("b", Val.VInt 2)]
    (by decide)
  exact ⟨h.1, h.2.2.1⟩

/-- C10: `Field(k, v)` returns exactly `Fields(F\x7bk: v\x7d)` — the single-pair
helper is definitionally the singleton-map merge — and obeys last-write-wins
for the key `k` while leaving every other key unchanged. -/
theorem field_eq_fields (l : Log) (k k' : String) (v : Val) (h : k' ≠ k) :
    (Log.Field l k v = Log.Fields l [(k, v)]) ∧
    (getF ((Log.Field l k v).Data.getD []) k = some v) ∧
    (getF ((Log.Field l k v).Data.getD []) k' = getF (l.Data.getD []) k') := by
  refine ⟨rfl, ?_, ?_⟩
  · cases hd : l.Data with
    | none => simp [Log.Field, Log.Fields, hd, getF]
    | some d =>
      have hm : mergeF d [(k, v)] = setKV d k v := rfl
      simp [Log.Field, Log.Fields, hd, hm, getF_setKV]
  · cases hd : l.Data with
    | none => simp [Log.Field, Log.Fields, hd, getF, if_neg (Ne.symm h)]
    | some d =>
      have hm : mergeF d [(k, v)] = setKV d k v := rfl
      simp [Log.Field, Log.Fields, hd, hm, getF_setKV_ne d k k' v h]

/-- Witness for C10 at a concrete entry holding `\x7bk: 1, j: 5\x7d`: writing
`k` again overwrites it and leaves `j` unchanged. -/
theorem field_eq_fields_w :
    (Log.Field { Data := some [("k", Val.VInt 1), ("j", Val.VInt 5)] } "k" (Val.VInt 2) =
      Log.Fields { Data := some [("k", Val.VInt 1), ("j", Val.VInt 5)] } [("k", Val.VInt 2)]) ∧
    (getF ((Log.Field { Data := some [("k", Val.VInt 1), ("j", Val.VInt 5)] } "k" (Val.VInt 2)).Data.getD []) "k" = some (Val.VInt 2)) ∧
    (getF ((Log.Field { Data := some [("k", Val.VInt 1), ("j", Val.VInt 5)] } "k" (Val.VInt 2)).Data.getD []) "j" =
      getF (((({ Data := some [("k", Val.VInt 1), ("j", Val.VInt 5)] } : Log)).Data).getD []) "j") := by
  exact field_eq_fields { Data := some [("k", Val.VInt 1), ("j", Val.VInt 5)] } "k" "j"
    (Val.VInt 2) (by decide)

end Zlog
